import Mathlib

/-!
Verification of the `booster` source subsystem (shallow embedding).

The embedding covers:
* `store/store.go` — the policy-gated `SourceStore` (`Put`, `Del`,
  `AddPolicy`, `DelPolicy`, `GetPoliciesSnapshot`);
* the policy constructors of the `store` package
  (`NewBlockPolicy`, `NewReservedPolicy`, `NewAvoidPolicy`, `NewStickyPolicy`)
  with their `Accept` methods;
* `core/ring.go` — the `Ring` wrapper around a circular buffer of sources.

Go slices become Lean lists, Go booleans become `Bool`, and the nilable
`interface{}` values held in ring slots become `Option`.
-/

namespace Booster

/-- `core.Source`: for the store and ring semantics only the stable
identity `Name()` of a source matters (policy matching is by name), so a
source is embedded as its name. -/
structure Source where
  Name : String
deriving DecidableEq, Repr

/-! ## store/store.go : data model -/

/-- `store.Policy`.  `Func` is evaluated on a source name; throughout the
store code (`Put`, `AddPolicy`) a source is admitted exactly when `Func`
returns `true` for it and evicted when `Func` returns `false`. -/
structure Policy where
  ID : String
  Func : String → Bool
  Reason : String
  Code : Int

/-- `store.DummySource`.  The `Metrics` map is omitted: no store operation
modelled here reads or writes it. -/
structure DummySource where
  internal : Source
  Name : String
  Policy : Policy
  Blocked : Bool

/-- `store.SourceStore`.  The field `protected` of the Go struct is named
`protectedS` here because `protected` is a Lean keyword. -/
structure SourceStore where
  protectedS : List Source
  Policies : List Policy
  underPolicy : List DummySource

/-! ### The protected `Store`

The concrete implementation of the `Store` interface that backs
`SourceStore.protected` is not among the sources; its operations are
modelled from the spec. -/

/-- Modelled from the spec: `Store.Put` of the protected store (the
concrete `Store` implementation is missing from the sources).  Per the
spec, a `Store` is "a set of Sources addressable by identity",
"membership is by `name`; duplicate `Put` is idempotent on identity". -/
def storePut (l : List Source) (s : Source) : List Source :=
  if l.any (fun t => t.Name == s.Name) then l else l ++ [s]

/-- Modelled from the spec: `Store.Del` of the protected store removes the
given sources by name. -/
def storeDel (l : List Source) (xs : List Source) : List Source :=
  l.filter (fun t => xs.all (fun v => !(v.Name == t.Name)))

/-- `store.New`: fresh `SourceStore` wrapping an empty protected store. -/
def New : SourceStore :=
  { protectedS := [], Policies := [], underPolicy := [] }

/-! ### store/store.go : operations -/

/-- The closure `f` inside `SourceStore.Put`: scan the policies in order
and return the first one whose `Func` rejects the name (Go returns
`(v, false)`; here the rejecting policy is returned as `some v`, and
`none` means the source is accepted by every policy). -/
def findReject (policies : List Policy) (name : String) : Option Policy :=
  policies.find? (fun v => !(v.Func name))

/-- `SourceStore.Put`: each source accepted by every policy goes to the
protected store; each rejected source is appended to `underPolicy` as a
`DummySource` tagged with the first rejecting policy, with `Name` set and
`Blocked: true`. -/
def Put (ss : SourceStore) (sources : List Source) : SourceStore :=
  let acc := sources.filter (fun v => (findReject ss.Policies v.Name).isNone)
  let up := sources.filterMap (fun v =>
    (findReject ss.Policies v.Name).map (fun p =>
      { internal := v, Name := v.Name, Policy := p, Blocked := true }))
  { protectedS := acc.foldl storePut ss.protectedS,
    Policies := ss.Policies,
    underPolicy := ss.underPolicy ++ up }

/-- `SourceStore.Del`: delete from the protected store by source name, and
keep only the `underPolicy` entries whose `Name` *field* differs from every
deleted source's name (the Go code compares `v.Name() == src.Name`). -/
def Del (ss : SourceStore) (sources : List Source) : SourceStore :=
  { protectedS := storeDel ss.protectedS sources,
    Policies := ss.Policies,
    underPolicy := ss.underPolicy.filter (fun src =>
      sources.all (fun v => !(v.Name == src.Name))) }

/-- `SourceStore.AddPolicy`: append the policy, sweep the protected store
for sources its `Func` rejects, delete those from the protected store and
append them to `underPolicy`.  The Go code builds the swept `DummySource`
with `{internal: v, Blocked: true, Policy: p}`, leaving the `Name` field at
its zero value `""`. -/
def AddPolicy (ss : SourceStore) (p : Policy) : SourceStore :=
  let acc := ss.protectedS.filter (fun src => !(p.Func src.Name))
  { protectedS := storeDel ss.protectedS acc,
    Policies := ss.Policies ++ [p],
    underPolicy := ss.underPolicy ++ acc.map (fun v =>
      { internal := v, Name := "", Policy := p, Blocked := true }) }

/-- `SourceStore.DelPolicy`: if no policy has the id, return unchanged;
otherwise erase the first policy with that id, put the `internal` source of
every `underPolicy` entry tagged with that id directly into the protected
store, and keep the remaining entries. -/
def DelPolicy (ss : SourceStore) (id : String) : SourceStore :=
  match ss.Policies.find? (fun v => v.ID == id) with
  | none => ss
  | some _ =>
    { protectedS :=
        (ss.underPolicy.filter (fun v => v.Policy.ID == id)).foldl
          (fun st v => storePut st v.internal) ss.protectedS,
      Policies := ss.Policies.eraseP (fun v => v.ID == id),
      underPolicy := ss.underPolicy.filter (fun v => !(v.Policy.ID == id)) }

/-- Go's `copy(dst, src)` copies `min (len dst) (len src)` elements into
the front of `dst` and leaves the rest of `dst` unchanged. -/
def goCopy {α : Type} (dst src : List α) : List α :=
  src.take dst.length ++ dst.drop src.length

/-- `SourceStore.GetPoliciesSnapshot`: `acc := make([]*Policy, 0, len(ss.Policies))`
is a slice of length 0, into which `copy(acc, ss.Policies)` is performed. -/
def GetPoliciesSnapshot (ss : SourceStore) : List Policy :=
  goCopy [] ss.Policies

/-! ### Mutation sequences over a `SourceStore` -/

/-- One mutating call on a `SourceStore`. -/
inductive Mutation where
  | put : List Source → Mutation
  | del : List Source → Mutation
  | addPolicy : Policy → Mutation
  | delPolicy : String → Mutation

/-- Apply one mutation. -/
def applyMut (ss : SourceStore) : Mutation → SourceStore
  | .put sources => Put ss sources
  | .del sources => Del ss sources
  | .addPolicy p => AddPolicy ss p
  | .delPolicy id => DelPolicy ss id

/-- Apply a sequence of mutations in order. -/
def applyMuts (ss : SourceStore) (ms : List Mutation) : SourceStore :=
  ms.foldl applyMut ss

/-- Whether a mutation is a `DelPolicy` call. -/
def Mutation.isDelPolicy : Mutation → Bool
  | .delPolicy _ => true
  | _ => false

/-- Names of the sources currently in the protected store. -/
def protectedNames (ss : SourceStore) : List String :=
  ss.protectedS.map Source.Name

/-- Names of the sources currently held in `underPolicy` (the names of the
`internal` sources the entries carry). -/
def underPolicyNames (ss : SourceStore) : List String :=
  ss.underPolicy.map (fun d => d.internal.Name)

/-- Spec invariant P1: a source held anywhere in the `SourceStore` is in
the protected store iff every current policy accepts its name. -/
def admissionInvariant (ss : SourceStore) : Prop :=
  ∀ n ∈ protectedNames ss ++ underPolicyNames ss,
    (n ∈ protectedNames ss ↔ ∀ p ∈ ss.Policies, p.Func n = true)

/-- Spec invariant P2: no source name is both in the protected store and
held in `underPolicy`. -/
def partitionInvariant (ss : SourceStore) : Prop :=
  ∀ n ∈ protectedNames ss, n ∉ underPolicyNames ss

instance (ss : SourceStore) : Decidable (admissionInvariant ss) := by
  unfold admissionInvariant; infer_instance

instance (ss : SourceStore) : Decidable (partitionInvariant ss) := by
  unfold partitionInvariant; infer_instance

/-! ## Policy constructors of the `store` package

These are the `Policy` implementations with `Accept(id, target) bool`
methods.  `fmt.Sprintf` on string arguments is embedded as string
concatenation. -/

/-- The policy code constants: `PolicyCodeBlock = iota + 1`, so
block = 1, reserve = 2, stick = 3. -/
def PolicyCodeBlock : Int := 1

/-- `PolicyCodeReserve`. -/
def PolicyCodeReserve : Int := 2

/-- `PolicyCodeStick`. -/
def PolicyCodeStick : Int := 3

/-- `store.basePolicy`. -/
structure basePolicy where
  Name : String
  Reason : String
  Issuer : String
  Code : Int
  Desc : String

/-- `store.BlockPolicy`. -/
structure BlockPolicy where
  base : basePolicy
  SourceID : String

/-- `store.NewBlockPolicy`. -/
def NewBlockPolicy (issuer sourceID : String) : BlockPolicy :=
  { base :=
      { Name := "block_" ++ sourceID,
        Reason := "",
        Issuer := issuer,
        Code := PolicyCodeBlock,
        Desc := "source " ++ sourceID ++ " will no longer be used" },
    SourceID := sourceID }

/-- `BlockPolicy.Accept`. -/
def BlockPolicy.Accept (p : BlockPolicy) (id _target : String) : Bool :=
  id != p.SourceID

/-- `store.ReservedPolicy`. -/
structure ReservedPolicy where
  base : basePolicy
  SourceID : String
  Target : String

/-- `store.NewReservedPolicy`. -/
def NewReservedPolicy (issuer sourceID target : String) : ReservedPolicy :=
  { base :=
      { Name := "reserve_" ++ sourceID ++ "_for_" ++ target,
        Reason := "",
        Issuer := issuer,
        Code := PolicyCodeReserve,
        Desc := "source " ++ sourceID ++
          " will only be used for connections to " ++ target },
    SourceID := sourceID,
    Target := target }

/-- `ReservedPolicy.Accept`: if `id == p.SourceID` then
`target == p.Target`, else `true`. -/
def ReservedPolicy.Accept (p : ReservedPolicy) (id target : String) : Bool :=
  if id == p.SourceID then target == p.Target else true

/-- `store.AvoidPolicy`. -/
structure AvoidPolicy where
  base : basePolicy
  SourceID : String
  Target : String

/-- `store.NewAvoidPolicy`: note the Go constructor sets
`Code: PolicyCodeReserve`, the same code as reserve. -/
def NewAvoidPolicy (issuer sourceID target : String) : AvoidPolicy :=
  { base :=
      { Name := "avoid_" ++ sourceID ++ "_for_" ++ target,
        Reason := "",
        Issuer := issuer,
        Code := PolicyCodeReserve,
        Desc := "source " ++ sourceID ++
          " will not be used for connections to " ++ target },
    SourceID := sourceID,
    Target := target }

/-- `AvoidPolicy.Accept`. -/
def AvoidPolicy.Accept (p : AvoidPolicy) (id target : String) : Bool :=
  if target == p.Target then id != p.SourceID else true

/-- `store.HistoryQueryFunc`: Go's `(string, bool)` return becomes
`Option String`. -/
def HistoryQueryFunc : Type := String → Option String

/-- `store.StickyPolicy`. -/
structure StickyPolicy where
  base : basePolicy
  BindHistory : HistoryQueryFunc

/-- `store.NewStickyPolicy`. -/
def NewStickyPolicy (issuer : String) (f : HistoryQueryFunc) : StickyPolicy :=
  { base :=
      { Name := "stick",
        Reason := "",
        Issuer := issuer,
        Code := PolicyCodeStick,
        Desc := "once a source receives a connection to a target, the following connections to the same target will be assigned to the same source" },
    BindHistory := f }

/-- `StickyPolicy.Accept`. -/
def StickyPolicy.Accept (p : StickyPolicy) (id target : String) : Bool :=
  match p.BindHistory target with
  | some hid => id == hid
  | none => true

/-! ## core/ring.go

`core.Ring` wraps Go's `container/ring.Ring`, a circular doubly linked
list with a cursor, whose slots hold `interface{}` values.  With fixed
membership (`Link`/`Unlink` are not modelled) it is embedded as a list of
slots plus a cursor index moved modulo the size; a slot that was never
`Set` (or holds a non-`Source` value, which `Source()` also maps to nil)
is `none`. -/

structure Ring where
  vals : List (Option Source)
  pos : Nat

/-- `core.NewRing`: a ring with `n` positions, none of them set. -/
def NewRing (n : Nat) : Ring :=
  { vals := List.replicate n none, pos := 0 }

/-- `Ring.Source`: the value at the current position if it is a `Source`,
nil (`none`) otherwise. -/
def Ring.Source (r : Ring) : Option Source :=
  r.vals.getD r.pos none

/-- `Ring.Set`: set the value at the current position. -/
def Ring.Set (r : Ring) (s : Booster.Source) : Ring :=
  { r with vals := r.vals.set r.pos (some s) }

/-- `Ring.Next`: advance the cursor one position. -/
def Ring.Next (r : Ring) : Ring :=
  { r with pos := (r.pos + 1) % r.vals.length }

/-- `Ring.Prev`: move the cursor back one position. -/
def Ring.Prev (r : Ring) : Ring :=
  { r with pos := (r.pos + (r.vals.length - 1)) % r.vals.length }

/-- `core.NewRingSources`: on a fresh ring of size `len ss`, `Set` each
source and move to `Next`. -/
def NewRingSources (ss : List Source) : Ring :=
  ss.foldl (fun r v => (r.Set v).Next) (NewRing ss.length)

/-- Iterate `Ring.Next` `k` times. -/
def Ring.nextN (r : Ring) : Nat → Ring
  | 0 => r
  | k + 1 => r.Next.nextN k

/-! ## Helper lemmas about the protected store -/

theorem mem_names_storePut {l : List Source} {x : Source} {n : String} :
    n ∈ (storePut l x).map Source.Name ↔ n ∈ l.map Source.Name ∨ n = x.Name := by
  unfold storePut
  split
  · rename_i hany
    rw [List.any_eq_true] at hany
    obtain ⟨t, ht, htx⟩ := hany
    constructor
    · exact fun hl => Or.inl hl
    · rintro (hl | rfl)
      · exact hl
      · exact List.mem_map.mpr ⟨t, ht, by simpa using htx⟩
  · simp

theorem mem_storePut {l : List Source} {x s : Source} :
    s ∈ storePut l x → s ∈ l ∨ s = x := by
  unfold storePut
  split
  · exact fun h => Or.inl h
  · intro h
    rcases List.mem_append.mp h with h | h
    · exact Or.inl h
    · exact Or.inr (by simpa using h)

theorem mem_foldl_storePut {l : List Source} {st : List Source} {s : Source} :
    s ∈ l.foldl storePut st → s ∈ st ∨ s ∈ l := by
  induction l generalizing st with
  | nil => exact fun h => Or.inl h
  | cons x xs ih =>
    intro h
    rcases ih h with h | h
    · rcases mem_storePut h with h | h
      · exact Or.inl h
      · exact Or.inr (by simp [h])
    · exact Or.inr (List.mem_cons_of_mem _ h)

theorem mem_names_of_mem_names_foldl {α : Type} {f : α → Source}
    {l : List α} {st : List Source} {n : String} (h : n ∈ st.map Source.Name) :
    n ∈ (l.foldl (fun acc v => storePut acc (f v)) st).map Source.Name := by
  induction l generalizing st with
  | nil => exact h
  | cons x xs ih => exact ih (mem_names_storePut.mpr (Or.inl h))

theorem mem_names_foldl_of_mem {α : Type} {f : α → Source}
    {l : List α} {st : List Source} {d : α} (h : d ∈ l) :
    (f d).Name ∈ (l.foldl (fun acc v => storePut acc (f v)) st).map Source.Name := by
  induction l generalizing st with
  | nil => cases h
  | cons x xs ih =>
    simp only [List.foldl_cons]
    rcases List.mem_cons.mp h with rfl | h
    · exact mem_names_of_mem_names_foldl (mem_names_storePut.mpr (Or.inr rfl))
    · exact ih h

/-! ## The store invariant -/

/-- The inductive invariant the `SourceStore` mutations maintain (as long
as `DelPolicy` is not called): every protected source is accepted by every
installed policy, and every `underPolicy` entry is tagged with an installed
policy that rejects the name of the source it holds. -/
def storeInv (ss : SourceStore) : Prop :=
  (∀ s ∈ ss.protectedS, ∀ p ∈ ss.Policies, p.Func s.Name = true) ∧
  (∀ d ∈ ss.underPolicy, d.Policy ∈ ss.Policies ∧ d.Policy.Func d.internal.Name = false)

theorem storeInv_New : storeInv New := by
  constructor <;> intro x hx <;> simp [New] at hx

theorem storeInv_Put {ss : SourceStore} (h : storeInv ss) (sources : List Source) :
    storeInv (Put ss sources) := by
  obtain ⟨hprot, hup⟩ := h
  constructor
  · intro s hs p hp
    rcases mem_foldl_storePut hs with hs | hs
    · exact hprot s hs p hp
    · rw [List.mem_filter] at hs
      obtain ⟨-, hnone⟩ := hs
      rw [Option.isNone_iff_eq_none] at hnone
      have := List.find?_eq_none.mp hnone p hp
      simpa using this
  · intro d hd
    rcases List.mem_append.mp hd with hd | hd
    · exact hup d hd
    · rw [List.mem_filterMap] at hd
      obtain ⟨v, -, hv⟩ := hd
      rw [Option.map_eq_some'] at hv
      obtain ⟨p, hfind, rfl⟩ := hv
      refine ⟨List.mem_of_find?_eq_some hfind, ?_⟩
      have := List.find?_some hfind
      simpa using this

theorem storeInv_Del {ss : SourceStore} (h : storeInv ss) (sources : List Source) :
    storeInv (Del ss sources) := by
  obtain ⟨hprot, hup⟩ := h
  constructor
  · intro s hs p hp
    exact hprot s (List.mem_filter.mp hs).1 p hp
  · intro d hd
    exact hup d (List.mem_filter.mp hd).1

theorem storeInv_AddPolicy {ss : SourceStore} (h : storeInv ss) (p : Policy) :
    storeInv (AddPolicy ss p) := by
  obtain ⟨hprot, hup⟩ := h
  constructor
  · intro s hs q hq
    simp only [AddPolicy, storeDel] at hs hq
    rw [List.mem_filter] at hs
    obtain ⟨hsmem, hall⟩ := hs
    rcases List.mem_append.mp hq with hq | hq
    · exact hprot s hsmem q hq
    · rw [List.mem_singleton] at hq
      subst hq
      by_contra hfalse
      rw [Bool.not_eq_true] at hfalse
      have hsacc : s ∈ ss.protectedS.filter (fun src => !(q.Func src.Name)) :=
        List.mem_filter.mpr ⟨hsmem, by simp [hfalse]⟩
      have := (List.all_eq_true.mp hall) s hsacc
      simp at this
  · intro d hd
    simp only [AddPolicy] at hd ⊢
    rcases List.mem_append.mp hd with hd | hd
    · obtain ⟨h1, h2⟩ := hup d hd
      exact ⟨List.mem_append.mpr (Or.inl h1), h2⟩
    · rw [List.mem_map] at hd
      obtain ⟨v, hv, rfl⟩ := hd
      rw [List.mem_filter] at hv
      refine ⟨List.mem_append.mpr (Or.inr (List.mem_singleton.mpr rfl)), ?_⟩
      simpa using hv.2

theorem storeInv_applyMut {ss : SourceStore} {m : Mutation} (h : storeInv ss)
    (hm : m.isDelPolicy = false) : storeInv (applyMut ss m) := by
  cases m with
  | put sources => exact storeInv_Put h sources
  | del sources => exact storeInv_Del h sources
  | addPolicy p => exact storeInv_AddPolicy h p
  | delPolicy id => simp [Mutation.isDelPolicy] at hm

theorem storeInv_applyMuts {ss : SourceStore} (h : storeInv ss) (ms : List Mutation)
    (hms : ∀ m ∈ ms, m.isDelPolicy = false) : storeInv (applyMuts ss ms) := by
  induction ms generalizing ss with
  | nil => exact h
  | cons m ms ih =>
    exact ih (storeInv_applyMut h (hms m (List.mem_cons_self m ms)))
      (fun x hx => hms x (List.mem_cons_of_mem m hx))

theorem storeInv_implies_admission {ss : SourceStore} (h : storeInv ss) :
    admissionInvariant ss := by
  obtain ⟨hprot, hup⟩ := h
  intro n hn
  constructor
  · intro hmem p hp
    rw [protectedNames, List.mem_map] at hmem
    obtain ⟨s, hs, rfl⟩ := hmem
    exact hprot s hs p hp
  · intro hall
    rcases List.mem_append.mp hn with hmem | hmem
    · exact hmem
    · exfalso
      rw [underPolicyNames, List.mem_map] at hmem
      obtain ⟨d, hd, rfl⟩ := hmem
      obtain ⟨h1, h2⟩ := hup d hd
      rw [hall d.Policy h1] at h2
      simp at h2

theorem storeInv_implies_partition {ss : SourceStore} (h : storeInv ss) :
    partitionInvariant ss := by
  obtain ⟨hprot, hup⟩ := h
  intro n hmem hmem'
  rw [protectedNames, List.mem_map] at hmem
  obtain ⟨s, hs, rfl⟩ := hmem
  rw [underPolicyNames, List.mem_map] at hmem'
  obtain ⟨d, hd, hdn⟩ := hmem'
  obtain ⟨h1, h2⟩ := hup d hd
  rw [hdn, hprot s hs d.Policy h1] at h2
  simp at h2

/-! ## Helper lemmas about the ring -/

theorem Ring.nextN_vals (r : Ring) (k : Nat) : (r.nextN k).vals = r.vals := by
  induction k generalizing r with
  | zero => rfl
  | succ k ih => rw [Ring.nextN, ih]; rfl

theorem Ring.nextN_pos (r : Ring) (k : Nat) :
    (r.nextN (k + 1)).pos = (r.pos + (k + 1)) % r.vals.length := by
  induction k generalizing r with
  | zero => rfl
  | succ k ih =>
    rw [Ring.nextN, ih r.Next]
    show ((r.pos + 1) % r.vals.length + (k + 1)) % r.vals.length = _
    rw [Nat.mod_add_mod]
    ring_nf

theorem foldl_setNext_vals_length (l : List Source) (r : Ring) :
    (l.foldl (fun r v => (r.Set v).Next) r).vals.length = r.vals.length := by
  induction l generalizing r with
  | nil => rfl
  | cons x xs ih =>
    rw [List.foldl_cons, ih]
    simp [Ring.Set, Ring.Next]

theorem foldl_setNext_pos (l : List Source) (r : Ring) (h : l ≠ []) :
    (l.foldl (fun r v => (r.Set v).Next) r).pos =
      (r.pos + l.length) % r.vals.length := by
  induction l generalizing r with
  | nil => cases h rfl
  | cons x xs ih =>
    rw [List.foldl_cons]
    by_cases hxs : xs = []
    · subst hxs
      simp [Ring.Set, Ring.Next]
    · rw [ih ((r.Set x).Next) hxs]
      show ((r.pos + 1) % (r.vals.set r.pos (some x)).length + xs.length) %
          (r.vals.set r.pos (some x)).length = _
      rw [List.length_set, Nat.mod_add_mod, List.length_cons]
      ring_nf

theorem NewRingSources_vals_length (ss : List Source) :
    (NewRingSources ss).vals.length = ss.length := by
  rw [NewRingSources, foldl_setNext_vals_length]
  simp [NewRing]

theorem NewRingSources_pos (ss : List Source) (h : ss ≠ []) :
    (NewRingSources ss).pos = 0 := by
  rw [NewRingSources, foldl_setNext_pos _ _ h]
  simp [NewRing]

theorem ring_ext (r q : Ring) (hv : r.vals = q.vals) (hp : r.pos = q.pos) :
    r = q := by
  cases r; cases q; cases hv; cases hp; rfl

/-! ## Concrete instances used by witnesses and counterexamples -/

/-- A source named `A`. -/
def srcA : Source := ⟨"A"⟩

/-- A source named `B`. -/
def srcB : Source := ⟨"B"⟩

/-- A policy with id `p1` that rejects the source named `A` and accepts
every other source. -/
def pol1 : Policy := { ID := "p1", Func := fun n => !(n == "A"), Reason := "", Code := 0 }

/-- A second policy, with id `p2`, that also rejects only the source
named `A`. -/
def pol2 : Policy := { ID := "p2", Func := fun n => !(n == "A"), Reason := "", Code := 0 }

/-- Mutation sequence for the C1 counterexample: admit `A`, install two
policies that both reject `A` (the first sweep moves `A` to `underPolicy`
tagged with `p1`), then delete policy `p1`. -/
def ssC1 : SourceStore :=
  applyMuts New [.put [srcA], .addPolicy pol1, .addPolicy pol2, .delPolicy "p1"]

/-- Mutation sequence for the C2 counterexample: `A` enters `underPolicy`
tagged `p1`; `p2` (which also rejects `A`) is installed afterwards; then
`p1` is deleted. -/
def ssC2 : SourceStore :=
  applyMuts New [.addPolicy pol1, .put [srcA], .addPolicy pol2, .delPolicy "p1"]

/-- Mutation sequence for the C3 counterexample: after deleting `p1`, `A`
sits in the protected store while `p2` rejects it; a second `Put` of `A`
then also appends `A` to `underPolicy`. -/
def ssC3 : SourceStore :=
  applyMuts New
    [.addPolicy pol1, .addPolicy pol2, .put [srcA], .delPolicy "p1", .put [srcA]]

/-- Store for the C4 failing input: `A` is admitted, then swept into
`underPolicy` by `AddPolicy pol1` (which leaves the entry's `Name` field
empty). -/
def ssC4 : SourceStore := applyMuts New [.put [srcA], .addPolicy pol1]

/-- A delPolicy-free mutation sequence used by witnesses. -/
def msW : List Mutation := [.put [srcA, srcB], .addPolicy pol1]

/-- A store with a single policy installed, used by the C9 witness. -/
def ssW9 : SourceStore := AddPolicy New pol1

/-- A store whose `underPolicy` holds the source `A` tagged with policy
`p1`, used by the C2 witness. -/
def ssW2 : SourceStore := applyMuts New [.addPolicy pol1, .put [srcA]]

/-! ## Claims -/

/-- Claim C1, counterexample: after `Put A; AddPolicy p1; AddPolicy p2;
DelPolicy "p1"` (both policies reject `A`), the source `A` is in the
protected store although policy `p2` still rejects its name, so the
admission invariant fails. -/
theorem C1_admission_counterexample : ¬ admissionInvariant ssC1 := by decide

/-- Claim C1, amended: after any sequence of the mutations `Put`, `Del`,
`AddPolicy` (no `DelPolicy`) starting from a fresh store, a source held in
the `SourceStore` is a member of the protected store if and only if every
policy currently in the store accepts its name. -/
theorem C1_admission_invariant_delPolicyFree (ms : List Mutation)
    (h : ∀ m ∈ ms, m.isDelPolicy = false) :
    admissionInvariant (applyMuts New ms) :=
  storeInv_implies_admission (storeInv_applyMuts storeInv_New ms h)

/-- Witness for the amended claim C1 at the concrete delPolicy-free
sequence `msW`. -/
theorem C1_admission_invariant_delPolicyFree_witness :
    (∀ m ∈ msW, m.isDelPolicy = false) ∧ admissionInvariant (applyMuts New msW) :=
  ⟨by decide, C1_admission_invariant_delPolicyFree msW (by decide)⟩

/-- Claim C2, counterexample: with `A` held in `underPolicy` tagged `p1`
and a second installed policy `p2` that also rejects `A`, `DelPolicy "p1"`
restores `A` to the protected store even though `p2` still rejects it —
the claim says a source still rejected by another policy is not
restored. -/
theorem C2_delPolicy_counterexample :
    "A" ∈ protectedNames ssC2 ∧ ∃ p ∈ ssC2.Policies, p.Func "A" = false := by
  decide

/-- Claim C2, amended: when some policy has the given id, `DelPolicy id`
removes the first policy with that id (the policy list splits as
`l1 ++ q :: l2` where `q` carries the id, nothing in `l1` does, and the
remaining list is `l1 ++ l2`), puts the source of every `underPolicy`
entry tagged with that id directly into the protected store — without
re-running the admission pipeline, hence regardless of the remaining
policies — and keeps the entries tagged with other policies. -/
theorem C2_delPolicy_direct_restore (ss : SourceStore) (id : String)
    (h : ∃ p ∈ ss.Policies, p.ID = id) :
    (∃ l1 q l2, ss.Policies = l1 ++ q :: l2 ∧ q.ID = id ∧
      (∀ p ∈ l1, p.ID ≠ id) ∧ (DelPolicy ss id).Policies = l1 ++ l2) ∧
    (∀ d ∈ ss.underPolicy, d.Policy.ID = id →
      d.internal.Name ∈ protectedNames (DelPolicy ss id)) ∧
    ∀ d ∈ ss.underPolicy, d.Policy.ID ≠ id →
      d ∈ (DelPolicy ss id).underPolicy := by
  obtain ⟨q, hq, hqid⟩ := h
  have hfind : (ss.Policies.find? (fun v => v.ID == id)).isSome :=
    List.find?_isSome.mpr ⟨q, hq, by simp [hqid]⟩
  rw [Option.isSome_iff_exists] at hfind
  obtain ⟨q', hq'⟩ := hfind
  have hdp : DelPolicy ss id =
      { protectedS :=
          (ss.underPolicy.filter (fun v => v.Policy.ID == id)).foldl
            (fun st v => storePut st v.internal) ss.protectedS,
        Policies := ss.Policies.eraseP (fun v => v.ID == id),
        underPolicy := ss.underPolicy.filter (fun v => !(v.Policy.ID == id)) } := by
    unfold DelPolicy
    rw [hq']
  refine ⟨?_, ?_, ?_⟩
  · obtain ⟨a, l1, l2, hl1, ha, hsplit, herase⟩ :=
      List.exists_of_eraseP (p := fun v => v.ID == id) hq (by simp [hqid])
    refine ⟨l1, a, l2, hsplit, by simpa using ha, ?_, ?_⟩
    · intro p hp
      simpa using hl1 p hp
    · rw [hdp]
      exact herase
  · intro d hd hid
    rw [hdp, protectedNames]
    exact mem_names_foldl_of_mem
      (List.mem_filter.mpr ⟨hd, by simp [hid]⟩)
  · intro d hd hid
    rw [hdp]
    exact List.mem_filter.mpr ⟨hd, by simp [hid]⟩

/-- Witness for the amended claim C2: a store holding `A` under policy
`p1`, from which `DelPolicy "p1"` is performed. -/
theorem C2_delPolicy_direct_restore_witness :
    (∃ p ∈ ssW2.Policies, p.ID = "p1") ∧
    ((∃ l1 q l2, ssW2.Policies = l1 ++ q :: l2 ∧ q.ID = "p1" ∧
        (∀ p ∈ l1, p.ID ≠ "p1") ∧ (DelPolicy ssW2 "p1").Policies = l1 ++ l2) ∧
      (∀ d ∈ ssW2.underPolicy, d.Policy.ID = "p1" →
        d.internal.Name ∈ protectedNames (DelPolicy ssW2 "p1")) ∧
      ∀ d ∈ ssW2.underPolicy, d.Policy.ID ≠ "p1" →
        d ∈ (DelPolicy ssW2 "p1").underPolicy) :=
  ⟨by decide, C2_delPolicy_direct_restore ssW2 "p1" (by decide)⟩

/-- Claim C3, counterexample: after `AddPolicy p1; AddPolicy p2; Put A;
DelPolicy "p1"; Put A` the name `A` is both in the protected store (put
back by `DelPolicy`) and in `underPolicy` (appended by the second `Put`,
which `p2` rejects), so the partition invariant fails. -/
theorem C3_partition_counterexample : ¬ partitionInvariant ssC3 := by decide

/-- Claim C3, amended: after any sequence of the mutations `Put`, `Del`,
`AddPolicy` (no `DelPolicy`) starting from a fresh store, no source name
is both in the protected store and among the `underPolicy` entries. -/
theorem C3_partition_delPolicyFree (ms : List Mutation)
    (h : ∀ m ∈ ms, m.isDelPolicy = false) :
    partitionInvariant (applyMuts New ms) :=
  storeInv_implies_partition (storeInv_applyMuts storeInv_New ms h)

/-- Witness for the amended claim C3 at the concrete delPolicy-free
sequence `msW`. -/
theorem C3_partition_delPolicyFree_witness :
    (∀ m ∈ msW, m.isDelPolicy = false) ∧ partitionInvariant (applyMuts New msW) :=
  ⟨by decide, C3_partition_delPolicyFree msW (by decide)⟩

/-- Claim C4, evaluation at the failing input: `A` entered `underPolicy`
through the `AddPolicy` sweep (which leaves the entry's `Name` field at
the zero value `""`), so `Del A` removes nothing from `underPolicy`: the
entry holding the source named `A` survives, contradicting the claim that
`Del` removes every entry whose name equals `A` from both sets. -/
theorem C4_del_misses_swept_entry :
    underPolicyNames (Del ssC4 [srcA]) = ["A"] ∧
    (Del ssC4 [srcA]).underPolicy.map DummySource.Name = [""] ∧
    protectedNames (Del ssC4 [srcA]) = [] := by
  decide

/-- Claim C5, evaluation at the failing input: `GetPoliciesSnapshot`
copies the policy list into a length-zero destination slice, so it returns
the empty list for every store; in particular, with one installed policy
the snapshot has length 0, not 1. -/
theorem C5_policies_snapshot_empty :
    (∀ ss : SourceStore, GetPoliciesSnapshot ss = []) ∧
    (AddPolicy New pol1).Policies.length = 1 ∧
    GetPoliciesSnapshot (AddPolicy New pol1) = [] := by
  refine ⟨fun ss => ?_, rfl, rfl⟩
  simp [GetPoliciesSnapshot, goCopy]

/-- Claim C6: a `ReservedPolicy` built from source id `S` and target `T`
accepts `(id, target)` exactly when `id` differs from `S` or `target`
equals `T`. -/
theorem C6_reserved_policy_accept (issuer S T id target : String) :
    (NewReservedPolicy issuer S T).Accept id target = (id != S || target == T) := by
  rw [ReservedPolicy.Accept, NewReservedPolicy]
  by_cases h : id = S
  · subst h; simp
  · simp [h]

/-- Claim C7: the `Code` of the constructed policies is 1 for block, 2 for
reserve, 2 for avoid (same code as reserve), and 3 for sticky. -/
theorem C7_policy_codes (issuer sourceID target : String) (f : HistoryQueryFunc) :
    (NewBlockPolicy issuer sourceID).base.Code = 1 ∧
    (NewReservedPolicy issuer sourceID target).base.Code = 2 ∧
    (NewAvoidPolicy issuer sourceID target).base.Code = 2 ∧
    (NewStickyPolicy issuer f).base.Code = 3 :=
  ⟨rfl, rfl, rfl, rfl⟩

/-- Claim C8: a ring built by `NewRingSources` from a non-empty list of
`n` sources is circular — `n` applications of `Next` return the cursor to
its starting position (same current `Source`), and `Prev` undoes one
`Next`. -/
theorem C8_ring_rotation (ss : List Source) (h : ss ≠ []) :
    ((NewRingSources ss).nextN ss.length).Source = (NewRingSources ss).Source ∧
    (NewRingSources ss).Next.Prev.Source = (NewRingSources ss).Source := by
  obtain ⟨m, hm⟩ : ∃ m, ss.length = m + 1 :=
    ⟨ss.length - 1, by have := List.length_pos.mpr h; omega⟩
  have hlen := NewRingSources_vals_length ss
  have hpos := NewRingSources_pos ss h
  constructor
  · have he : (NewRingSources ss).nextN ss.length = NewRingSources ss := by
      apply ring_ext
      · exact Ring.nextN_vals _ _
      · rw [hm, Ring.nextN_pos, hpos, hlen, hm]
        simp
    rw [he]
  · have he : (NewRingSources ss).Next.Prev = NewRingSources ss := by
      apply ring_ext
      · rfl
      · simp only [Ring.Prev, Ring.Next, hpos, hlen, hm]
        simp only [Nat.zero_add, Nat.add_sub_cancel]
        rw [Nat.mod_add_mod, Nat.add_comm 1 m, Nat.mod_self]
    rw [he]

/-- Witness for claim C8 at the concrete two-source list `[srcA, srcB]`. -/
theorem C8_ring_rotation_witness :
    ([srcA, srcB] ≠ []) ∧
    (((NewRingSources [srcA, srcB]).nextN [srcA, srcB].length).Source =
        (NewRingSources [srcA, srcB]).Source ∧
      (NewRingSources [srcA, srcB]).Next.Prev.Source =
        (NewRingSources [srcA, srcB]).Source) :=
  ⟨by decide, C8_ring_rotation [srcA, srcB] (by decide)⟩

/-- Claim C9: `DelPolicy` with an id matching no installed policy leaves
the store exactly unchanged. -/
theorem C9_delPolicy_missing_id_noop (ss : SourceStore) (id : String)
    (h : ∀ p ∈ ss.Policies, (p.ID == id) = false) : DelPolicy ss id = ss := by
  have hf : ss.Policies.find? (fun v => v.ID == id) = none :=
    List.find?_eq_none.mpr (fun p hp => by simp [h p hp])
  unfold DelPolicy
  rw [hf]

/-- Witness for claim C9: deleting an id that is not installed in a store
holding one policy. -/
theorem C9_delPolicy_missing_id_noop_witness :
    (∀ p ∈ ssW9.Policies, (p.ID == "other") = false) ∧
    DelPolicy ssW9 "other" = ssW9 :=
  ⟨by decide, C9_delPolicy_missing_id_noop ssW9 "other" (by decide)⟩

/-- Claim C10: on a ring from `NewRing n` (with at least one position)
whose values were never `Set`, `Source()` returns nil (`none`) at every
position reached by rotating the cursor. -/
theorem C10_fresh_ring_source_nil (n k : Nat) (_h : 0 < n) :
    ((NewRing n).nextN k).Source = none := by
  rw [Ring.Source, Ring.nextN_vals]
  show (List.replicate n none).getD ((NewRing n).nextN k).pos none = none
  simp [List.getD]

/-- Witness for claim C10 on a fresh three-position ring rotated five
times. -/
theorem C10_fresh_ring_source_nil_witness :
    0 < 3 ∧ ((NewRing 3).nextN 5).Source = none :=
  ⟨by decide, C10_fresh_ring_source_nil 3 5 (by decide)⟩

end Booster
